import Mathlib

/-
Verification of the graph execution engine of `app/graph_engine.py`
(`ai_workflow_engine`), together with the log-streaming consumer of
`app/main.py`.  The Python engine is shallowly embedded: Python dicts become
association lists, node/tool functions become pure functions from state to a
(possibly mutated) state plus a returned value or a raised exception message,
and the `while` traversal loop of `execute_graph_run` becomes a fuel-indexed
recursion whose fuel equals the hard step bound, so the fuel never runs out
before the bound check fires.
-/

namespace GraphEngine

/-- A Python runtime value, as far as the engine inspects values: `None`,
booleans, integers, strings and dicts with string keys.  This covers every
shape the engine itself cares about (`isinstance(res, dict)`, `"next" in res`,
`is True`, `str(...)`). -/
inductive Val where
  | vNone : Val
  | vBool (b : Bool) : Val
  | vInt (n : Int) : Val
  | vStr (s : String) : Val
  | vDict (entries : List (String × Val)) : Val

mutual

/-- Decidable equality of embedded values (the automatic deriving does not
handle the nested list, so it is spelled out). -/
def decEqVal : (a b : Val) → Decidable (a = b)
  | Val.vNone, Val.vNone => isTrue rfl
  | Val.vNone, Val.vBool _ => isFalse (fun h => Val.noConfusion h)
  | Val.vNone, Val.vInt _ => isFalse (fun h => Val.noConfusion h)
  | Val.vNone, Val.vStr _ => isFalse (fun h => Val.noConfusion h)
  | Val.vNone, Val.vDict _ => isFalse (fun h => Val.noConfusion h)
  | Val.vBool _, Val.vNone => isFalse (fun h => Val.noConfusion h)
  | Val.vBool a, Val.vBool b =>
    if h : a = b then isTrue (by rw [h]) else isFalse (fun hh => h (by injection hh))
  | Val.vBool _, Val.vInt _ => isFalse (fun h => Val.noConfusion h)
  | Val.vBool _, Val.vStr _ => isFalse (fun h => Val.noConfusion h)
  | Val.vBool _, Val.vDict _ => isFalse (fun h => Val.noConfusion h)
  | Val.vInt _, Val.vNone => isFalse (fun h => Val.noConfusion h)
  | Val.vInt _, Val.vBool _ => isFalse (fun h => Val.noConfusion h)
  | Val.vInt a, Val.vInt b =>
    if h : a = b then isTrue (by rw [h]) else isFalse (fun hh => h (by injection hh))
  | Val.vInt _, Val.vStr _ => isFalse (fun h => Val.noConfusion h)
  | Val.vInt _, Val.vDict _ => isFalse (fun h => Val.noConfusion h)
  | Val.vStr _, Val.vNone => isFalse (fun h => Val.noConfusion h)
  | Val.vStr _, Val.vBool _ => isFalse (fun h => Val.noConfusion h)
  | Val.vStr _, Val.vInt _ => isFalse (fun h => Val.noConfusion h)
  | Val.vStr a, Val.vStr b =>
    if h : a = b then isTrue (by rw [h]) else isFalse (fun hh => h (by injection hh))
  | Val.vStr _, Val.vDict _ => isFalse (fun h => Val.noConfusion h)
  | Val.vDict _, Val.vNone => isFalse (fun h => Val.noConfusion h)
  | Val.vDict _, Val.vBool _ => isFalse (fun h => Val.noConfusion h)
  | Val.vDict _, Val.vInt _ => isFalse (fun h => Val.noConfusion h)
  | Val.vDict _, Val.vStr _ => isFalse (fun h => Val.noConfusion h)
  | Val.vDict a, Val.vDict b =>
    match decEqValEntries a b with
    | isTrue h => isTrue (by rw [h])
    | isFalse h => isFalse (fun hh => h (by injection hh))

/-- Decidable equality of dict entry lists. -/
def decEqValEntries : (a b : List (String × Val)) → Decidable (a = b)
  | [], [] => isTrue rfl
  | [], _ :: _ => isFalse (fun h => List.noConfusion h)
  | _ :: _, [] => isFalse (fun h => List.noConfusion h)
  | (k1, v1) :: t1, (k2, v2) :: t2 =>
    match decEqVal v1 v2, decEqValEntries t1 t2 with
    | isTrue h2, isTrue h3 =>
      if h1 : k1 = k2 then isTrue (by rw [h1, h2, h3])
      else isFalse (by
        intro h
        injection h with hh ht
        injection hh with hk hv
        exact h1 hk)
    | isFalse h2, _ => isFalse (by
        intro h
        injection h with hh ht
        injection hh with hk hv
        exact h2 hv)
    | isTrue _, isFalse h3 => isFalse (by
        intro h
        injection h with hh ht
        exact h3 ht)

end

instance : DecidableEq Val := decEqVal

/-- `v is None` (Python identity test against the `None` singleton). -/
def pyIsNone : Val → Bool
  | Val.vNone => true
  | _ => false

/-- `v is True` (Python identity test against the `True` singleton). -/
def pyIsTrue : Val → Bool
  | Val.vBool true => true
  | _ => false

/-- A Python dict with string keys, as an association list (unique keys in all
uses; insertion order preserved, as in Python). -/
abbrev PyState := List (String × Val)

/-- `d.get(k)` / `k in d`: the value at key `k`, if present. -/
def dGet (d : List (String × Val)) (k : String) : Option Val :=
  (d.find? (fun p => p.1 == k)).map (fun p => p.2)

/-- `d[k] = v`: replace the value at `k` in place, or append a new entry, as a
Python dict assignment does. -/
def dSet (d : List (String × Val)) (k : String) (v : Val) : List (String × Val) :=
  if d.any (fun p => p.1 == k) then
    d.map (fun p => if p.1 == k then (k, v) else p)
  else
    d ++ [(k, v)]

/-- `d.update(u)`: last-write-wins merge of `u` into `d`, in `u`'s order
(`run_state.state.update(res)` in the engine). -/
def dUpdate (d : List (String × Val)) (u : List (String × Val)) : List (String × Val) :=
  u.foldl (fun acc p => dSet acc p.1 p.2) d

/-- `"next" in res` for a dict body `d`. -/
def dHasKey (d : List (String × Val)) (k : String) : Bool :=
  d.any (fun p => p.1 == k)

/-- The decimal digit character for `n < 10`. -/
def digitChar10 (n : Nat) : Char := Char.ofNat (48 + n)

/-- Decimal digits of a natural number, fuel-indexed (fuel `n+1` always
suffices). -/
def natDigitsAux : Nat → Nat → List Char
  | 0, _ => []
  | fuel + 1, n =>
    if n < 10 then [digitChar10 n]
    else natDigitsAux fuel (n / 10) ++ [digitChar10 (n % 10)]

/-- Decimal rendering of a natural number, as Python `str` renders it. -/
def natStr (n : Nat) : String := ⟨natDigitsAux (n + 1) n⟩

/-- Decimal rendering of an integer, as Python `str` renders it. -/
def pyIntStr : Int → String
  | Int.ofNat n => natStr n
  | Int.negSucc n => "-" ++ natStr (n + 1)

mutual

/-- Python `repr` on the embedded values: `None`, `True`, `False`, decimal
integers, quoted strings, and `\x7b'k': v, ...\x7d` for dicts. -/
def pyRepr : Val → String
  | Val.vNone => "None"
  | Val.vBool true => "True"
  | Val.vBool false => "False"
  | Val.vInt n => pyIntStr n
  | Val.vStr s => "'" ++ s ++ "'"
  | Val.vDict entries => "\x7b" ++ pyReprEntries entries ++ "\x7d"

/-- Comma-separated `'key': repr(value)` items of a dict, in order. -/
def pyReprEntries : List (String × Val) → String
  | [] => ""
  | [(k, v)] => "'" ++ k ++ "': " ++ pyRepr v
  | (k, v) :: rest => "'" ++ k ++ "': " ++ pyRepr v ++ ", " ++ pyReprEntries rest

end

/-- Python `str` on the embedded values: strings render bare, everything else
as `repr`. -/
def pyStr : Val → String
  | Val.vStr s => s
  | v => pyRepr v

/-- Python `str.lower()` (ASCII case folding suffices for the values the
engine produces). -/
def pyLower (s : String) : String := ⟨s.data.map Char.toLower⟩

/-- `str.startswith(pre)` (spelled out structurally so that it reduces). -/
def pyStartsWith (s pre : String) : Bool := pre.data.isPrefixOf s.data

/-- `s[n:]` on strings -- drop the first `n` characters. -/
def pyDrop (s : String) (n : Nat) : String := ⟨s.data.drop n⟩

/-- `s[:n]` on strings -- take the first `n` characters. -/
def pyTake (s : String) (n : Nat) : String := ⟨s.data.take n⟩

/-- `_shortrepr`: `str(obj)` truncated at 400 characters with an ellipsis
marker (graph_engine.py lines 83-88). -/
def shortrepr (v : Val) : String :=
  let s := pyStr v
  if s.length ≤ 400 then s else pyTake s 400 ++ "..."

/-- Outcome of calling a node/tool function with the run's state: the function
may mutate the state in place and return a value, or raise (possibly after
mutating the state). -/
inductive FnRes where
  | ok (state : PyState) (ret : Val) : FnRes
  | exn (state : PyState) (msg : String) : FnRes

/-- A registered node/tool function: Python callables receive the run's state
dict as their sole argument. -/
abbrev Fn := PyState → FnRes

/-- A function registry (`NODE_FUNCS` / `tools`): a name-to-callable table. -/
abbrev Registry := List (String × Fn)

/-- `registry.get(name)`. -/
def lookupFn (r : Registry) (name : String) : Option Fn :=
  (r.find? (fun p => p.1 == name)).map (fun p => p.2)

/-- `NodeDef.next`: either a single target key or a branching dict, embedded
with its entries (`.get("true")` / `.get("false")` read it). -/
inductive EdgeSpec where
  | eStr (s : String) : EdgeSpec
  | eDict (entries : List (String × String)) : EdgeSpec
deriving DecidableEq

/-- `branch_dict.get(k)`. -/
def edgeGet (entries : List (String × String)) (k : String) : Option String :=
  (entries.find? (fun p => p.1 == k)).map (fun p => p.2)

/-- A node definition (graph_engine.py `NodeDef`).  `meta` is embedded by the
single entry the engine reads: `meta["condition"]`, carried as the expression
text (for the error message) together with the semantics of `eval`-uating it
against a state — a boolean by truthiness, or a raised message. -/
structure NodeDef where
  key : String
  fn_name : Option String := none
  next : Option EdgeSpec := none
  meta_condition : Option (String × (PyState → Except String Bool)) := none

/-- A graph definition (graph_engine.py `GraphDef`); the UUID is embedded as a
number, used only in the start log line. -/
structure GraphDef where
  graph_id : Nat
  nodes : List (String × NodeDef)
  entry : String := ""

/-- `graph.nodes.get(node_key)`.  The loop variable `node_key` is a Python
value (it is whatever `result["next"]` or a branch lookup produced); node
tables are keyed by strings, so any non-string key misses. -/
def lookupNode (g : GraphDef) : Val → Option NodeDef
  | Val.vStr s => ((g.nodes.find? (fun p => p.1 == s)).map (fun p => p.2))
  | _ => none

/-- The mutable per-run data the engine touches while looping: the shared
state dict, the append-only log list, the log queue contents (in push order;
`none` is the end-of-stream sentinel), and `current_node`. -/
structure EngineSt where
  state : PyState
  logs : List String := []
  queue : List (Option String) := []
  current_node : Val := Val.vNone

/-- `_emit`: append the message to the run's log list and push it on the log
queue (graph_engine.py lines 75-81; the queue `put` on an unbounded queue
never fails). -/
def emit (es : EngineSt) (msg : String) : EngineSt :=
  { es with logs := es.logs ++ [msg], queue := es.queue ++ [some msg] }

/-- Why the traversal loop stopped: the current key became `None`, the visit
bound was hit at the loop condition, a missing node broke out, or an exception
was raised. -/
inductive ExitReason where
  | normal : ExitReason
  | missingNode (key : Val) : ExitReason
  | stepBound : ExitReason
  | raised (msg : String) : ExitReason
deriving DecidableEq

/-- `MAX_STEPS` (graph_engine.py line 97). -/
def MAX_STEPS : Nat := 1000

/-- Stand-in for the `traceback.format_exc()` text appended to the top-level
failure log line. -/
def TRACEBACK : String := "Traceback (most recent call last): ..."

/-- Lines 111-133: execute the node's tool or node function, if any.  Returns
the engine data after any in-place mutation and merge, plus either the
function's returned value (`result`; `Val.vNone` when nothing ran) or a raised
exception message.  A tool's returned dict is merged unconditionally; a node
function's returned dict is merged only when it has no "next" key. -/
def execNodeFn (nf tl : Registry) (node_key : Val) (nd : NodeDef) (es : EngineSt) :
    EngineSt × Except String Val :=
  match nd.fn_name with
  | some fname =>
    if fname ≠ "" then
      if pyStartsWith fname "tool:" then
        let tname := pyDrop fname 5
        match lookupFn tl tname with
        | none => (es, Except.error ("Tool '" ++ tname ++ "' not found"))
        | some tool =>
          match tool es.state with
          | FnRes.exn st m => ({ es with state := st }, Except.error m)
          | FnRes.ok st res =>
            match res with
            | Val.vDict d => ({ es with state := dUpdate st d }, Except.ok res)
            | _ => ({ es with state := st }, Except.ok res)
      else
        match lookupFn nf fname with
        | none => (es, Except.error ("Node function '" ++ fname ++ "' not registered"))
        | some fn =>
          match fn es.state with
          | FnRes.exn st m => ({ es with state := st }, Except.error m)
          | FnRes.ok st res =>
            match res with
            | Val.vDict d =>
              if dHasKey d "next" then ({ es with state := st }, Except.ok res)
              else ({ es with state := dUpdate st d }, Except.ok res)
            | _ => ({ es with state := st }, Except.ok res)
    else
      (emit es ("Node '" ++ pyStr node_key ++ "' has no fn_name; skipping execution."),
        Except.ok Val.vNone)
  | none =>
    (emit es ("Node '" ++ pyStr node_key ++ "' has no fn_name; skipping execution."),
      Except.ok Val.vNone)

/-- Lines 145-164 (priority 2): the node's static `next` edge, honouring
Python truthiness of `node_def.next` and the branch evaluation: a
`meta["condition"]` expression when present, else the `last_condition`
fallback. -/
def staticNext (nd : NodeDef) (es : EngineSt) : EngineSt × Except String Val :=
  match nd.next with
  | some (EdgeSpec.eStr s) =>
    if s ≠ "" then (es, Except.ok (Val.vStr s)) else (es, Except.ok Val.vNone)
  | some (EdgeSpec.eDict entries) =>
    if entries ≠ [] then
      match nd.meta_condition with
      | some (expr, ev) =>
        match ev es.state with
        | Except.error e =>
          (es, Except.error ("Error evaluating condition '" ++ expr ++ "': " ++ e))
        | Except.ok b =>
          let branch := if b then "true" else "false"
          match edgeGet entries branch with
          | some s => (es, Except.ok (Val.vStr s))
          | none => (es, Except.ok Val.vNone)
      | none =>
        let branch_flag := (dGet es.state "last_condition").getD Val.vNone
        if pyIsTrue branch_flag || pyLower (pyStr branch_flag) == "true" then
          match edgeGet entries "true" with
          | some s => (es, Except.ok (Val.vStr s))
          | none => (es, Except.ok Val.vNone)
        else
          match edgeGet entries "false" with
          | some s => (es, Except.ok (Val.vStr s))
          | none => (es, Except.ok Val.vNone)
    else (es, Except.ok Val.vNone)
  | none => (es, Except.ok Val.vNone)

/-- Lines 138-164: next-node resolution.  Priority 1 is an explicit `next`
entry in a dict result (its value is taken verbatim, `None` included);
otherwise the static edge decides. -/
def resolveNext (nd : NodeDef) (result : Val) (es : EngineSt) :
    EngineSt × Except String Val :=
  match result with
  | Val.vDict d =>
    if dHasKey d "next" then
      let nn := (dGet d "next").getD Val.vNone
      (emit es ("Node returned explicit next: " ++ pyStr nn), Except.ok nn)
    else staticNext nd es
  | _ => staticNext nd es

/-- Lines 106-172, one loop iteration after the node lookup succeeded: emit
the entry line, run the node's function, emit the completion line, resolve the
next key, and apply the stop-flag override.  Returns the updated engine data
and either the next node key or a raised exception message. -/
def stepNode (nf tl : Registry) (node_key : Val) (nd : NodeDef) (es : EngineSt) :
    EngineSt × Except String Val :=
  let es := emit es ("Entering node: " ++ pyStr node_key)
  match execNodeFn nf tl node_key nd es with
  | (es, Except.error m) => (es, Except.error m)
  | (es, Except.ok result) =>
    let es := emit es
      ("Node '" ++ pyStr node_key ++ "' completed. result=" ++ shortrepr result)
    match resolveNext nd result es with
    | (es, Except.error m) => (es, Except.error m)
    | (es, Except.ok next_node) =>
      if pyIsTrue ((dGet es.state "stop").getD Val.vNone) then
        (emit es "State requested stop -> finishing run.", Except.ok Val.vNone)
      else (es, Except.ok next_node)

/-- Lines 98-172: the traversal loop.  The loop condition is checked in the
Python order (`node_key is not None` first, then `visited < MAX_STEPS`); the
fuel is an upper bound on the remaining iterations (the engine passes
`MAX_STEPS`, so the fuel can run out only when the bound check would fire) and
the fuel-0 case classifies the exit by the same condition.  Returns the final
engine data, the visit count, and why the loop stopped. -/
def runLoop (g : GraphDef) (nf tl : Registry) :
    Nat → Val → Nat → EngineSt → EngineSt × Nat × ExitReason
  | 0, node_key, visited, es =>
    (es, visited, if pyIsNone node_key then ExitReason.normal else ExitReason.stepBound)
  | fuel + 1, node_key, visited, es =>
    if pyIsNone node_key then (es, visited, ExitReason.normal)
    else if MAX_STEPS ≤ visited then (es, visited, ExitReason.stepBound)
    else
      let visited := visited + 1
      let es := { es with current_node := node_key }
      match lookupNode g node_key with
      | none =>
        (emit es ("Node '" ++ pyStr node_key ++ "' not found. Stopping."),
          visited, ExitReason.missingNode node_key)
      | some nd =>
        match stepNode nf tl node_key nd es with
        | (es, Except.error m) => (es, visited, ExitReason.raised m)
        | (es, Except.ok next_node) => runLoop g nf tl fuel next_node visited es

/-- The observable outcome of a run: final shared state, log list, log-queue
contents, terminal status, last `current_node`, the visit count, and the
loop's exit reason. -/
structure RunResult where
  state : PyState
  logs : List String
  queue : List (Option String)
  status : String
  current_node : Val
  visited : Nat
  reason : ExitReason

/-- `execute_graph_run` (graph_engine.py lines 91-190): start log line, the
traversal loop from the graph's entry key, then the post-loop status
assignment — an exception is caught at the top level and logged with a trace
(status FAILED); otherwise `visited >= MAX_STEPS` decides FAILED versus DONE.
As the final act the end-of-stream marker `none` is pushed on the log queue
(the `finally` block of lines 185-190). -/
def execute_graph_run (g : GraphDef) (nf tl : Registry) (init : PyState) : RunResult :=
  let es : EngineSt := { state := init }
  let es := emit es ("Run started for graph " ++ natStr g.graph_id ++ ", entry=" ++ g.entry)
  match runLoop g nf tl MAX_STEPS (Val.vStr g.entry) 0 es with
  | (es, visited, reason) =>
    let esStatus : EngineSt × String :=
      match reason with
      | ExitReason.raised m =>
        (emit es ("Execution failed: " ++ m ++ "\n" ++ TRACEBACK), "FAILED")
      | _ =>
        if MAX_STEPS ≤ visited then
          (emit es ("Max steps " ++ natStr MAX_STEPS ++ " reached, aborting."), "FAILED")
        else
          (emit es "Run finished. status=DONE", "DONE")
    match esStatus with
    | (es, status) =>
      { state := es.state
        logs := es.logs
        queue := es.queue ++ [none]
        status := status
        current_node := es.current_node
        visited := visited
        reason := reason }

/-- The websocket consumer's read loop (main.py lines 126-135): take messages
from the queue until the `None` sentinel. -/
def websocket_drain : List (Option String) → List String
  | [] => []
  | none :: _ => []
  | some m :: rest => m :: websocket_drain rest

/-- Whether the loop ended by raising. -/
def isRaised : ExitReason → Bool
  | ExitReason.raised _ => true
  | _ => false

/-- The `str(...)` rendering of the key of a missing-node exit, if that is how
the loop ended. -/
def missingKeyRepr : ExitReason → Option String
  | ExitReason.missingNode k => some (pyStr k)
  | _ => none

/-- The log invariant the engine maintains: every message appended to the log
list was also pushed on the queue, in the same order. -/
def QInv (es : EngineSt) : Prop := es.queue = es.logs.map some

/-- `es'` extends `es` by appending the same messages to the log list and (as
`some`-wrapped entries) to the queue; the engine's steps only ever do this. -/
def Extends (es es' : EngineSt) : Prop :=
  ∃ ms, es'.logs = es.logs ++ ms ∧ es'.queue = es.queue ++ ms.map some

/-- The spec's fallback-branch predicate, in its own words: the state's
`last_condition` is the boolean true value, or a string equal to "true"
case-insensitively. -/
def last_condition_truthy (st : PyState) : Prop :=
  dGet st "last_condition" = some (Val.vBool true) ∨
    ∃ s, dGet st "last_condition" = some (Val.vStr s) ∧ pyLower s = "true"

/- ---------------------------------------------------------------------
Aliasing model for run creation (`run_graph_async`, graph_engine.py lines
218-226).  The pure engine model above cannot express object identity, so the
copy discipline is modelled separately: a dict is a map from keys to object
references (heap addresses), `initial_state.copy()` is a fresh top-level
mapping holding the very same references, functional update of the run's own
mapping models top-level rebinding, and writing through an address models
in-place mutation of a nested mutable object.
--------------------------------------------------------------------- -/

/-- An addressable Python object (enough shapes to exhibit nested mutation:
scalars and a mutable list). -/
inductive PyObj where
  | pInt (n : Int) : PyObj
  | pList (xs : List Int) : PyObj
deriving DecidableEq

/-- The object store. -/
abbrev ObjHeap := List PyObj

/-- A Python dict at the reference level: keys bound to object addresses. -/
abbrev PyDictRef := List (String × Nat)

/-- `dict.copy()`: a fresh top-level mapping with the same key-to-object
references (Python's shallow copy). -/
def dict_copy (d : PyDictRef) : PyDictRef := d

/-- The run's state dict as `run_graph_async` creates it (line 223:
`state=initial_state.copy()`). -/
def run_graph_async_state (initial_state : PyDictRef) : PyDictRef :=
  dict_copy initial_state

/-- The reference stored at key `k`. -/
def refGet (d : PyDictRef) (k : String) : Option Nat :=
  (d.find? (fun p => p.1 == k)).map (fun p => p.2)

/-- What an observer holding dict `d` sees: each key with the object its
reference currently designates. -/
def dictView (h : ObjHeap) (d : PyDictRef) : List (String × Option PyObj) :=
  d.map (fun p => (p.1, h[p.2]?))

/-- Top-level rebinding `d[k] = <fresh object o>` in the run's state: the new
object is allocated at a fresh address and only the run's own mapping is
rebound. -/
def setKeyFresh (h : ObjHeap) (d : PyDictRef) (k : String) (o : PyObj) :
    ObjHeap × PyDictRef :=
  (h ++ [o],
    if d.any (fun p => p.1 == k) then
      d.map (fun p => if p.1 == k then (k, h.length) else p)
    else d ++ [(k, h.length)])

/-- In-place mutation of the object at address `a` (e.g. appending to the
nested list reached through `state["xs"]`). -/
def heapWrite (h : ObjHeap) (a : Nat) (o : PyObj) : ObjHeap := h.set a o

/- ---------------------------------------------------------------------
Concrete scenarios used by counterexamples and witnesses.
--------------------------------------------------------------------- -/

/-- The integer stored at key "n" of a state (0 when absent). -/
def getN (st : PyState) : Int :=
  match dGet st "n" with
  | some (Val.vInt m) => m
  | _ => 0

/-- A tool returning a mapping that contains a `next` entry next to a data
entry. -/
def toolReturningNext : Fn := fun st =>
  FnRes.ok st (Val.vDict [("x", Val.vInt 1), ("next", Val.vNone)])

/-- One node invoking that tool. -/
def toolNextGraph : GraphDef :=
  { graph_id := 2, nodes := [("S", { key := "S", fn_name := some "tool:t" })], entry := "S" }

/-- A node function returning a mapping that contains a `next` entry next to a
data entry (node-function counterpart of `toolReturningNext`). -/
def nodeFnReturningNext : Fn := fun st =>
  FnRes.ok st (Val.vDict [("x", Val.vInt 1), ("next", Val.vNone)])

/-- A node function that counts its visits in `state["n"]` and keeps returning
an explicit next of "A" until the 1000th visit, where it returns an explicit
`next` of `None`. -/
def cycleUntilNoneFn : Fn := fun st =>
  let n := getN st + 1
  FnRes.ok (dSet st "n" (Val.vInt n))
    (Val.vDict [("next", if n < 1000 then Val.vStr "A" else Val.vNone)])

/-- The self-loop graph driven by `cycleUntilNoneFn`. -/
def cycleUntilNoneGraph : GraphDef :=
  { graph_id := 3, nodes := [("A", { key := "A", fn_name := some "f" })], entry := "A" }

/-- The same self-loop, but with a static edge to "C" that the explicit-next
override always shadows. -/
def cycleNullNextGraph : GraphDef :=
  { graph_id := 9,
    nodes := [("A", { key := "A", fn_name := some "f",
                      next := some (EdgeSpec.eStr "C") })],
    entry := "A" }

/-- A node function that counts its visits and routes to "A" 999 times, then
to the dangling key "B" on its 999th visit, so the 1000th visit looks up a
missing node. -/
def cycleThenDanglingFn : Fn := fun st =>
  let n := getN st + 1
  FnRes.ok (dSet st "n" (Val.vInt n))
    (Val.vDict [("next", if n < 999 then Val.vStr "A" else Val.vStr "B")])

/-- The self-loop graph driven by `cycleThenDanglingFn` ("B" is dangling). -/
def cycleThenDanglingGraph : GraphDef :=
  { graph_id := 4, nodes := [("A", { key := "A", fn_name := some "f" })], entry := "A" }

/-- A node function that counts its visits and sets `last_condition` to true
until the 1000th visit; with a branch edge carrying only a "true" target, the
1000th visit selects the absent "false" key. -/
def branchCycleFn : Fn := fun st =>
  let n := getN st + 1
  FnRes.ok (dSet (dSet st "n" (Val.vInt n)) "last_condition" (Val.vBool (n < 1000)))
    Val.vNone

/-- The self-loop graph driven by `branchCycleFn`: its branch dict has no
"false" entry. -/
def branchCycleGraph : GraphDef :=
  { graph_id := 5,
    nodes := [("A", { key := "A", fn_name := some "f",
                      next := some (EdgeSpec.eDict [("true", "A")]) })],
    entry := "A" }

/-- Scenario 1 of the spec: a single node with no function and no edge. -/
def singleNodeGraph : GraphDef :=
  { graph_id := 6, nodes := [("start", { key := "start" })], entry := "start" }

/-- A graph whose entry key has no node (a dangling entry). -/
def danglingEntryGraph : GraphDef :=
  { graph_id := 8, nodes := [], entry := "gone" }

/-- A graph whose entry node names an unregistered tool. -/
def missingToolGraph : GraphDef :=
  { graph_id := 7, nodes := [("S", { key := "S", fn_name := some "tool:x" })], entry := "S" }

/-- A node with no function and no edge, for the stop-flag witness. -/
def stopNodeDef : NodeDef := { key := "S" }

/-- Engine data whose state already carries the stop flag. -/
def stopEs : EngineSt := { state := [("stop", Val.vBool true)] }

/-- A node with a two-target branch edge and no condition. -/
def fallbackBranchNode : NodeDef :=
  { key := "C", next := some (EdgeSpec.eDict [("true", "A"), ("false", "B")]) }

/-- A node with a branch edge carrying only a "true" target, whose
`meta["condition"]` expression reads the state's "go" entry (false on an
empty state), so evaluating the condition selects the absent "false" key. -/
def condBranchNode : NodeDef :=
  { key := "D", next := some (EdgeSpec.eDict [("true", "A")]),
    meta_condition := some ("state.get('go') is True",
      fun st => Except.ok (pyIsTrue ((dGet st "go").getD Val.vNone))) }

/-- Engine data whose state has `last_condition` bound to the string "TRUE". -/
def lastCondTrueEs : EngineSt := { state := [("last_condition", Val.vStr "TRUE")] }

/- ---------------------------------------------------------------------
Theorems.  First, helper lemmas about the engine's bookkeeping.
--------------------------------------------------------------------- -/

theorem emit_state (es : EngineSt) (m : String) : (emit es m).state = es.state := rfl

theorem extends_refl (es : EngineSt) : Extends es es := ⟨[], by simp, by simp⟩

theorem extends_emit (es : EngineSt) (m : String) : Extends es (emit es m) :=
  ⟨[m], by simp [emit], by simp [emit]⟩

theorem extends_state (es : EngineSt) (st : PyState) : Extends es { es with state := st } :=
  ⟨[], by simp, by simp⟩

theorem extends_current (es : EngineSt) (v : Val) :
    Extends es { es with current_node := v } :=
  ⟨[], by simp, by simp⟩

theorem extends_trans {a b c : EngineSt} (h1 : Extends a b) (h2 : Extends b c) :
    Extends a c := by
  obtain ⟨ms1, hl1, hq1⟩ := h1
  obtain ⟨ms2, hl2, hq2⟩ := h2
  exact ⟨ms1 ++ ms2, by simp [hl2, hl1], by simp [hq2, hq1]⟩

theorem qinv_of_extends {es es' : EngineSt} (hq : QInv es) (he : Extends es es') :
    QInv es' := by
  obtain ⟨ms, hl, hqq⟩ := he
  simp only [QInv] at hq ⊢
  simp [hl, hqq, hq]

theorem logs_mono_of_extends {es es' : EngineSt} {m : String} (he : Extends es es')
    (hm : m ∈ es.logs) : m ∈ es'.logs := by
  obtain ⟨ms, hl, _⟩ := he
  simp [hl, hm]

theorem execNodeFn_fst_extends (nf tl : Registry) (nk : Val) (nd : NodeDef) (es : EngineSt) :
    Extends es (execNodeFn nf tl nk nd es).1 := by
  unfold execNodeFn
  dsimp only
  repeat' split
  any_goals exact extends_refl _
  all_goals exact extends_emit _ _

theorem staticNext_fst (nd : NodeDef) (es : EngineSt) : (staticNext nd es).1 = es := by
  unfold staticNext
  dsimp only
  repeat' split
  all_goals rfl

theorem resolveNext_fst_extends (nd : NodeDef) (rv : Val) (es : EngineSt) :
    Extends es (resolveNext nd rv es).1 := by
  unfold resolveNext
  dsimp only
  repeat' split
  all_goals first
    | exact extends_emit _ _
    | (rw [staticNext_fst]; exact extends_refl _)

theorem stepNode_fst_extends (nf tl : Registry) (nk : Val) (nd : NodeDef) (es : EngineSt) :
    Extends es (stepNode nf tl nk nd es).1 := by
  unfold stepNode
  dsimp only
  split
  next es1 m heq =>
    have h1 : Extends (emit es ("Entering node: " ++ pyStr nk)) es1 := by
      have hx := execNodeFn_fst_extends nf tl nk nd (emit es ("Entering node: " ++ pyStr nk))
      rw [heq] at hx
      exact hx
    exact extends_trans (extends_emit _ _) h1
  next es1 result heq =>
    have h1 : Extends es es1 := by
      have hx := execNodeFn_fst_extends nf tl nk nd (emit es ("Entering node: " ++ pyStr nk))
      rw [heq] at hx
      exact extends_trans (extends_emit _ _) hx
    split
    next es2 m heq2 =>
      have h2 : Extends es es2 := by
        have hx := resolveNext_fst_extends nd result
          (emit es1 ("Node '" ++ pyStr nk ++ "' completed. result=" ++ shortrepr result))
        rw [heq2] at hx
        exact extends_trans h1 (extends_trans (extends_emit _ _) hx)
      exact h2
    next es2 nn heq2 =>
      have h2 : Extends es es2 := by
        have hx := resolveNext_fst_extends nd result
          (emit es1 ("Node '" ++ pyStr nk ++ "' completed. result=" ++ shortrepr result))
        rw [heq2] at hx
        exact extends_trans h1 (extends_trans (extends_emit _ _) hx)
      split
      · exact extends_trans h2 (extends_emit _ _)
      · exact h2

theorem runLoop_extends (g : GraphDef) (nf tl : Registry) :
    ∀ (fuel : Nat) (nk : Val) (v : Nat) (es : EngineSt),
      Extends es (runLoop g nf tl fuel nk v es).1 := by
  intro fuel
  induction fuel with
  | zero =>
    intro nk v es
    exact extends_refl es
  | succ f ih =>
    intro nk v es
    rw [runLoop]
    dsimp only
    split
    · exact extends_refl es
    split
    · exact extends_refl es
    split
    next heq =>
      exact extends_trans (extends_current es nk) (extends_emit _ _)
    next nd heq =>
      split
      next es2 m heq2 =>
        have h2 : Extends { es with current_node := nk } es2 := by
          have hx := stepNode_fst_extends nf tl nk nd { es with current_node := nk }
          rw [heq2] at hx
          exact hx
        exact extends_trans (extends_current es nk) h2
      next es2 nn heq2 =>
        have h2 : Extends { es with current_node := nk } es2 := by
          have hx := stepNode_fst_extends nf tl nk nd { es with current_node := nk }
          rw [heq2] at hx
          exact hx
        exact extends_trans (extends_trans (extends_current es nk) h2) (ih nn (v + 1) es2)

theorem runLoop_visited_le (g : GraphDef) (nf tl : Registry) :
    ∀ (fuel : Nat) (nk : Val) (v : Nat) (es : EngineSt), v ≤ MAX_STEPS →
      (runLoop g nf tl fuel nk v es).2.1 ≤ MAX_STEPS := by
  intro fuel
  induction fuel with
  | zero =>
    intro nk v es hv
    exact hv
  | succ f ih =>
    intro nk v es hv
    rw [runLoop]
    dsimp only
    split
    · exact hv
    split
    · exact hv
    next hb =>
      have hlt : v < MAX_STEPS := Nat.lt_of_not_le hb
      split
      · exact hlt
      split
      · exact hlt
      · exact ih _ (v + 1) _ hlt

theorem runLoop_missing_mem (g : GraphDef) (nf tl : Registry) :
    ∀ (fuel : Nat) (nk : Val) (v : Nat) (es es' : EngineSt) (v' : Nat) (key : Val),
      runLoop g nf tl fuel nk v es = (es', v', ExitReason.missingNode key) →
      ("Node '" ++ pyStr key ++ "' not found. Stopping.") ∈ es'.logs := by
  intro fuel
  induction fuel with
  | zero =>
    intro nk v es es' v' key h
    by_cases hnk : pyIsNone nk = true <;> simp [runLoop, hnk] at h
  | succ f ih =>
    intro nk v es es' v' key h
    rw [runLoop] at h
    dsimp only at h
    split at h
    · simp at h
    split at h
    · simp at h
    split at h
    next heq =>
      injection h with hA hBC
      injection hBC with hB hC
      injection hC with hk
      subst hk
      rw [← hA]
      simp [emit]
    next nd heq =>
      split at h
      next es2 m heq2 => simp at h
      next es2 nn heq2 => exact ih nn (v + 1) es2 es' v' key h

/-- The RunResult fields, in terms of the loop's outcome. -/
theorem execute_fields (g : GraphDef) (nf tl : Registry) (init : PyState)
    (es : EngineSt) (v : Nat) (r : ExitReason)
    (h : runLoop g nf tl MAX_STEPS (Val.vStr g.entry) 0
        (emit { state := init }
          ("Run started for graph " ++ natStr g.graph_id ++ ", entry=" ++ g.entry)) = (es, v, r)) :
    (execute_graph_run g nf tl init).visited = v ∧
    (execute_graph_run g nf tl init).reason = r ∧
    (execute_graph_run g nf tl init).state = es.state ∧
    (execute_graph_run g nf tl init).status =
      (match r with
        | ExitReason.raised _ => "FAILED"
        | _ => if MAX_STEPS ≤ v then "FAILED" else "DONE") ∧
    (execute_graph_run g nf tl init).logs =
      es.logs ++ [(match r with
        | ExitReason.raised m => "Execution failed: " ++ m ++ "\n" ++ TRACEBACK
        | _ => if MAX_STEPS ≤ v then "Max steps " ++ natStr MAX_STEPS ++ " reached, aborting."
               else "Run finished. status=DONE")] := by
  simp only [execute_graph_run, h]
  cases r <;> simp [emit] <;> split <;> simp [emit]

/-- C1, counterexample: a tool whose invocation returns the mapping
`\x7b"x": 1, "next": None\x7d` does have its other entries merged into the
run's state — the final state carries `x = 1` (and even the `next` entry
itself), so the mapping is not treated purely as a control directive for
tools. -/
theorem C1_counterexample :
    (execute_graph_run toolNextGraph [] [("t", toolReturningNext)] []).state =
      [("x", Val.vInt 1), ("next", Val.vNone)] ∧
    (execute_graph_run toolNextGraph [] [("t", toolReturningNext)] []).status = "DONE" :=
  ⟨rfl, rfl⟩

/-- C1, amended: for node functions a returned mapping containing `next` is
treated purely as a control directive — the state is exactly the function's
(possibly mutated) state, nothing merged; for tools the returned mapping is
merged unconditionally, `next` entry included; in both cases the mapping's
`next` value is remembered as the explicit next-node override. -/
theorem C1_next_directive :
    (∀ (nf tl : Registry) (nk : Val) (nd : NodeDef) (es : EngineSt) (fname : String)
        (fn : Fn) (st : PyState) (d : List (String × Val)),
        nd.fn_name = some fname → fname ≠ "" → pyStartsWith fname "tool:" = false →
        lookupFn nf fname = some fn → fn es.state = FnRes.ok st (Val.vDict d) →
        dHasKey d "next" = true →
        execNodeFn nf tl nk nd es = ({ es with state := st }, Except.ok (Val.vDict d))) ∧
    (∀ (nf tl : Registry) (nk : Val) (nd : NodeDef) (es : EngineSt) (fname : String)
        (tool : Fn) (st : PyState) (d : List (String × Val)),
        nd.fn_name = some fname → fname ≠ "" → pyStartsWith fname "tool:" = true →
        lookupFn tl (pyDrop fname 5) = some tool →
        tool es.state = FnRes.ok st (Val.vDict d) →
        execNodeFn nf tl nk nd es =
          ({ es with state := dUpdate st d }, Except.ok (Val.vDict d))) ∧
    (∀ (nd : NodeDef) (d : List (String × Val)) (es : EngineSt) (nv : Val),
        dHasKey d "next" = true → dGet d "next" = some nv →
        resolveNext nd (Val.vDict d) es =
          (emit es ("Node returned explicit next: " ++ pyStr nv), Except.ok nv)) := by
  refine ⟨?_, ?_, ?_⟩
  · intro nf tl nk nd es fname fn st d h1 h2 h3 h4 h5 h6
    simp [execNodeFn, h1, h2, h3, h4, h5, h6]
  · intro nf tl nk nd es fname tool st d h1 h2 h3 h4 h5
    simp [execNodeFn, h1, h2, h3, h4, h5]
  · intro nd d es nv h1 h2
    simp [resolveNext, h1, h2]

/-- C1, witness: at a concrete node function and a concrete tool, each
returning `\x7b"x": 1, "next": None\x7d` — the node function's state stays
empty, the tool's state receives the whole mapping. -/
theorem C1_next_directive_witness :
    execNodeFn [("f", nodeFnReturningNext)] [] (Val.vStr "S")
        { key := "S", fn_name := some "f" } { state := [] } =
      ({ state := [] }, Except.ok (Val.vDict [("x", Val.vInt 1), ("next", Val.vNone)])) ∧
    execNodeFn [] [("t", toolReturningNext)] (Val.vStr "S")
        { key := "S", fn_name := some "tool:t" } { state := [] } =
      ({ state := [("x", Val.vInt 1), ("next", Val.vNone)] },
        Except.ok (Val.vDict [("x", Val.vInt 1), ("next", Val.vNone)])) := by
  constructor
  · exact C1_next_directive.1 [("f", nodeFnReturningNext)] [] (Val.vStr "S")
      { key := "S", fn_name := some "f" } { state := [] } "f" nodeFnReturningNext []
      [("x", Val.vInt 1), ("next", Val.vNone)] rfl (by decide) rfl rfl rfl rfl
  · exact C1_next_directive.2.1 [] [("t", toolReturningNext)] (Val.vStr "S")
      { key := "S", fn_name := some "tool:t" } { state := [] } "tool:t" toolReturningNext []
      [("x", Val.vInt 1), ("next", Val.vNone)] rfl (by decide) rfl rfl rfl

/-- C2, counterexample: the run state created for the caller dict
`\x7b"xs" ↦ ref 0\x7d` holds the same reference 0, and mutating the nested
list object at that reference changes what the caller's original mapping
designates. -/
theorem C2_counterexample :
    refGet (run_graph_async_state [("xs", 0)]) "xs" = some 0 ∧
    dictView (heapWrite [PyObj.pList [1]] 0 (PyObj.pList [1, 2])) [("xs", 0)] ≠
      dictView [PyObj.pList [1]] [("xs", 0)] := by
  decide

/-- C2, amended: run creation copies only the top level of the initial state —
the run's dict shares every object reference with the caller's dict, so
rebinding a top-level key in the run's state (a fresh allocation plus a
rebinding of the run's own mapping) never changes the caller's view, while
in-place mutation of a shared nested object does. -/
theorem C2_shallow_copy :
    (∀ (d : PyDictRef) (k : String), refGet (run_graph_async_state d) k = refGet d k) ∧
    (∀ (h : ObjHeap) (d caller : PyDictRef) (k : String) (o : PyObj),
        (∀ p ∈ caller, p.2 < h.length) →
        dictView (setKeyFresh h d k o).1 caller = dictView h caller) := by
  constructor
  · intro d k
    rfl
  · intro h d caller k o hv
    simp only [setKeyFresh, dictView]
    rw [List.map_eq_map_iff]
    intro p hp
    rw [List.getElem?_append_left (hv p hp)]

/-- C2, witness: on a concrete heap and caller dict, a top-level rebinding of
the run's state leaves the caller's view unchanged. -/
theorem C2_shallow_copy_witness :
    dictView (setKeyFresh [PyObj.pList [1]] [("xs", 0)] "y" (PyObj.pInt 5)).1 [("xs", 0)] =
      dictView [PyObj.pList [1]] [("xs", 0)] :=
  C2_shallow_copy.2 [PyObj.pList [1]] [("xs", 0)] [("xs", 0)] "y" (PyObj.pInt 5) (by decide)


theorem runLoop_none (g : GraphDef) (nf tl : Registry) :
    ∀ (fuel : Nat) (v : Nat) (es : EngineSt),
      runLoop g nf tl fuel Val.vNone v es = (es, v, ExitReason.normal) := by
  intro fuel v es
  cases fuel <;> simp [runLoop, pyIsNone]

set_option maxRecDepth 100000 in
/-- C3, counterexample: a run of the self-loop graph whose node function
returns an explicit next of `None` on its 1000th visit — the loop exits
because the next key became `None` (reason `normal`, not the bound check),
yet the terminal status is FAILED, because the post-loop check looks only at
`visited >= MAX_STEPS`. -/
theorem C3_counterexample :
    (execute_graph_run cycleUntilNoneGraph [("f", cycleUntilNoneFn)] [] []).reason =
        ExitReason.normal ∧
    (execute_graph_run cycleUntilNoneGraph [("f", cycleUntilNoneFn)] [] []).visited = 1000 ∧
    (execute_graph_run cycleUntilNoneGraph [("f", cycleUntilNoneFn)] [] []).status = "FAILED" := by
  decide

/-- C3, amended: every run performs at most `MAX_STEPS` (1000) node visits;
absent an exception the status is FAILED exactly when the visit count equals
the bound — even if the loop exited for another reason on the 1000th visit —
and a non-exception FAILED run ends its log with the line citing the bound;
with fewer visits the run ends DONE. -/
theorem C3_step_bound (g : GraphDef) (nf tl : Registry) (init : PyState) :
    (execute_graph_run g nf tl init).visited ≤ MAX_STEPS ∧
    (isRaised (execute_graph_run g nf tl init).reason = false →
      ((execute_graph_run g nf tl init).status = "FAILED" ↔
        (execute_graph_run g nf tl init).visited = MAX_STEPS)) ∧
    (isRaised (execute_graph_run g nf tl init).reason = false →
      (execute_graph_run g nf tl init).status = "FAILED" →
      (execute_graph_run g nf tl init).logs.getLast? =
        some ("Max steps " ++ natStr MAX_STEPS ++ " reached, aborting.")) := by
  rcases hrl : runLoop g nf tl MAX_STEPS (Val.vStr g.entry) 0
      (emit { state := init }
        ("Run started for graph " ++ natStr g.graph_id ++ ", entry=" ++ g.entry)) with ⟨es, v, r⟩
  obtain ⟨hv, hr, hst, hstat, hlogs⟩ := execute_fields g nf tl init es v r hrl
  have hvle : v ≤ MAX_STEPS := by
    have hx := runLoop_visited_le g nf tl MAX_STEPS (Val.vStr g.entry) 0
      (emit { state := init }
        ("Run started for graph " ++ natStr g.graph_id ++ ", entry=" ++ g.entry))
      (Nat.zero_le _)
    rw [hrl] at hx
    exact hx
  refine ⟨by rw [hv]; exact hvle, ?_, ?_⟩
  · intro hnr
    rw [hr] at hnr
    rw [hstat, hv]
    cases r with
    | raised m => simp [isRaised] at hnr
    | normal =>
      dsimp only
      split
      next hle => exact ⟨fun _ => Nat.le_antisymm hvle hle, fun _ => rfl⟩
      next hgt => exact ⟨fun hc => by simp at hc, fun hc => absurd (hc ▸ Nat.le_refl _) hgt⟩
    | missingNode k =>
      dsimp only
      split
      next hle => exact ⟨fun _ => Nat.le_antisymm hvle hle, fun _ => rfl⟩
      next hgt => exact ⟨fun hc => by simp at hc, fun hc => absurd (hc ▸ Nat.le_refl _) hgt⟩
    | stepBound =>
      dsimp only
      split
      next hle => exact ⟨fun _ => Nat.le_antisymm hvle hle, fun _ => rfl⟩
      next hgt => exact ⟨fun hc => by simp at hc, fun hc => absurd (hc ▸ Nat.le_refl _) hgt⟩
  · intro hnr hfail
    rw [hr] at hnr
    rw [hstat] at hfail
    rw [hlogs]
    cases r with
    | raised m => simp [isRaised] at hnr
    | normal =>
      dsimp only at hfail ⊢
      split at hfail
      next hle => rw [if_pos hle]; exact List.getLast?_concat _
      next hgt => simp at hfail
    | missingNode k =>
      dsimp only at hfail ⊢
      split at hfail
      next hle => rw [if_pos hle]; exact List.getLast?_concat _
      next hgt => simp at hfail
    | stepBound =>
      dsimp only at hfail ⊢
      split at hfail
      next hle => rw [if_pos hle]; exact List.getLast?_concat _
      next hgt => simp at hfail

/-- C3, witness: for the one-node one-visit run the equivalence is concrete —
the status is DONE and the visit count is 1, not the bound. -/
theorem C3_step_bound_witness :
    ((execute_graph_run singleNodeGraph [] [] []).status = "FAILED" ↔
      (execute_graph_run singleNodeGraph [] [] []).visited = MAX_STEPS) :=
  (C3_step_bound singleNodeGraph [] [] []).2.1 rfl

set_option maxRecDepth 100000 in
/-- C4, counterexample: the self-loop graph that routes to the dangling key
"B" so that the missing node is looked up on the 1000th visit — the missing
node is hit (reason `missingNode "B"`), yet the run ends FAILED, not DONE,
because the post-loop check sees `visited >= MAX_STEPS`. -/
theorem C4_counterexample :
    missingKeyRepr
        (execute_graph_run cycleThenDanglingGraph [("f", cycleThenDanglingFn)] [] []).reason =
      some "B" ∧
    (execute_graph_run cycleThenDanglingGraph [("f", cycleThenDanglingFn)] [] []).visited = 1000 ∧
    (execute_graph_run cycleThenDanglingGraph [("f", cycleThenDanglingFn)] [] []).status =
        "FAILED" := by
  decide

/-- C4, amended: when the current node key is absent from the graph's node
table, the log line noting the missing node is emitted and the loop
terminates; the run ends DONE provided fewer than `MAX_STEPS` visits occurred,
while a missing node hit on the 1000th visit yields FAILED. -/
theorem C4_missing_node (g : GraphDef) (nf tl : Registry) (init : PyState) (key : Val) :
    ((execute_graph_run g nf tl init).reason = ExitReason.missingNode key →
      ("Node '" ++ pyStr key ++ "' not found. Stopping.") ∈
        (execute_graph_run g nf tl init).logs) ∧
    ((execute_graph_run g nf tl init).reason = ExitReason.missingNode key →
      (execute_graph_run g nf tl init).visited < MAX_STEPS →
      (execute_graph_run g nf tl init).status = "DONE") := by
  rcases hrl : runLoop g nf tl MAX_STEPS (Val.vStr g.entry) 0
      (emit { state := init }
        ("Run started for graph " ++ natStr g.graph_id ++ ", entry=" ++ g.entry)) with ⟨es, v, r⟩
  obtain ⟨hv, hr, hst, hstat, hlogs⟩ := execute_fields g nf tl init es v r hrl
  constructor
  · intro hmiss
    rw [hr] at hmiss
    subst hmiss
    have hmem := runLoop_missing_mem g nf tl MAX_STEPS (Val.vStr g.entry) 0
      (emit { state := init }
        ("Run started for graph " ++ natStr g.graph_id ++ ", entry=" ++ g.entry))
      es v key hrl
    rw [hlogs]
    exact List.mem_append_left _ hmem
  · intro hmiss hvlt
    rw [hr] at hmiss
    subst hmiss
    rw [hv] at hvlt
    rw [hstat]
    dsimp only
    rw [if_neg (Nat.not_le.mpr hvlt)]

/-- C4, witness: a run whose entry key has no node — the missing-node log
line is present and the run ends DONE. -/
theorem C4_missing_node_witness :
    ("Node 'gone' not found. Stopping.") ∈
      (execute_graph_run danglingEntryGraph [] [] []).logs ∧
    (execute_graph_run danglingEntryGraph [] [] []).status = "DONE" :=
  ⟨(C4_missing_node danglingEntryGraph [] [] [] (Val.vStr "gone")).1 rfl,
   (C4_missing_node danglingEntryGraph [] [] [] (Val.vStr "gone")).2 rfl (by decide)⟩

set_option maxRecDepth 100000 in
/-- C10, counterexample: a self-loop whose node function returns a mapping
with a `next` entry of `None` on its 1000th visit, on a node that also has a
static edge to "C" — the next key resolves to nothing, no error is raised and
no fallback to the static edge occurs (the loop exits with reason `normal`,
not by a missing "C"), yet the run ends FAILED rather than DONE, because the
post-loop check sees `visited >= MAX_STEPS`. -/
theorem C10_counterexample :
    (execute_graph_run cycleNullNextGraph [("f", cycleUntilNoneFn)] [] []).reason =
        ExitReason.normal ∧
    (execute_graph_run cycleNullNextGraph [("f", cycleUntilNoneFn)] [] []).visited = 1000 ∧
    (execute_graph_run cycleNullNextGraph [("f", cycleUntilNoneFn)] [] []).status = "FAILED" := by
  decide

/-- C10, amended: a returned mapping whose `next` entry is `None` resolves the
next key to nothing without consulting the static edge; a branch whose chosen
key is absent resolves to nothing without error, whether the branch was
chosen by evaluating `meta["condition"]` or by the `last_condition` fallback;
a `None` next key makes the loop exit normally with nothing further; and such
a run ends DONE provided it happened before the 1000th visit (at exactly the
bound the post-loop check yields FAILED instead). -/
theorem C10_dangling_next :
    (∀ (nd : NodeDef) (d : List (String × Val)) (es : EngineSt),
        dHasKey d "next" = true → dGet d "next" = some Val.vNone →
        resolveNext nd (Val.vDict d) es =
          (emit es "Node returned explicit next: None", Except.ok Val.vNone)) ∧
    (∀ (nd : NodeDef) (es : EngineSt) (entries : List (String × String))
        (expr : String) (ev : PyState → Except String Bool) (b : Bool),
        nd.next = some (EdgeSpec.eDict entries) → entries ≠ [] →
        nd.meta_condition = some (expr, ev) →
        ev es.state = Except.ok b →
        edgeGet entries (if b then "true" else "false") = none →
        staticNext nd es = (es, Except.ok Val.vNone)) ∧
    (∀ (nd : NodeDef) (es : EngineSt) (entries : List (String × String)),
        nd.next = some (EdgeSpec.eDict entries) → entries ≠ [] →
        nd.meta_condition = none →
        (if pyIsTrue ((dGet es.state "last_condition").getD Val.vNone) ||
              pyLower (pyStr ((dGet es.state "last_condition").getD Val.vNone)) == "true" then
            edgeGet entries "true"
          else edgeGet entries "false") = none →
        staticNext nd es = (es, Except.ok Val.vNone)) ∧
    (∀ (g : GraphDef) (nf tl : Registry) (fuel v : Nat) (es : EngineSt),
        runLoop g nf tl fuel Val.vNone v es = (es, v, ExitReason.normal)) ∧
    (∀ (g : GraphDef) (nf tl : Registry) (init : PyState),
        (execute_graph_run g nf tl init).reason = ExitReason.normal →
        (execute_graph_run g nf tl init).visited < MAX_STEPS →
        (execute_graph_run g nf tl init).status = "DONE") := by
  refine ⟨?_, ?_, ?_, ?_, ?_⟩
  · intro nd d es h1 h2
    simp [resolveNext, h1, h2, pyStr, pyRepr]
  · intro nd es entries expr ev b h1 h2 h3 h4 h5
    unfold staticNext
    rw [h1]
    dsimp only
    rw [if_pos h2, h3]
    dsimp only
    rw [h4]
    dsimp only
    rw [h5]
  · intro nd es entries h1 h2 h3 h4
    unfold staticNext
    rw [h1]
    dsimp only
    rw [if_pos h2, h3]
    dsimp only
    by_cases hc : (pyIsTrue ((dGet es.state "last_condition").getD Val.vNone) ||
        pyLower (pyStr ((dGet es.state "last_condition").getD Val.vNone)) == "true") = true
    · rw [if_pos hc] at h4
      rw [if_pos hc, h4]
    · rw [if_neg hc] at h4
      rw [if_neg hc, h4]
  · intro g nf tl fuel v es
    exact runLoop_none g nf tl fuel v es
  · intro g nf tl init hnorm hvlt
    rcases hrl : runLoop g nf tl MAX_STEPS (Val.vStr g.entry) 0
        (emit { state := init }
          ("Run started for graph " ++ natStr g.graph_id ++ ", entry=" ++ g.entry)) with ⟨es, v, r⟩
    obtain ⟨hv, hr, hst, hstat, hlogs⟩ := execute_fields g nf tl init es v r hrl
    rw [hr] at hnorm
    subst hnorm
    rw [hv] at hvlt
    rw [hstat]
    dsimp only
    rw [if_neg (Nat.not_le.mpr hvlt)]

/-- C10, witness: on an empty state the condition-branch node selects the
absent "false" key and resolves to nothing without error, and the one-node
run exits normally after one visit and ends DONE. -/
theorem C10_dangling_next_witness :
    staticNext condBranchNode { state := [] } = ({ state := [] }, Except.ok Val.vNone) ∧
    (execute_graph_run singleNodeGraph [] [] []).status = "DONE" :=
  ⟨C10_dangling_next.2.1 condBranchNode { state := [] } [("true", "A")]
      "state.get('go') is True"
      (fun st => Except.ok (pyIsTrue ((dGet st "go").getD Val.vNone))) false
      rfl (by decide) rfl rfl rfl,
   C10_dangling_next.2.2.2.2 singleNodeGraph [] [] [] rfl (by decide)⟩


/- Character-level facts needed for the fallback branch test: the `str`
rendering of a non-string value never case-folds to "true". -/

theorem natDigitsAux_mem (fuel : Nat) :
    ∀ (n : Nat) (c : Char), c ∈ natDigitsAux fuel n →
      c ∈ ['0', '1', '2', '3', '4', '5', '6', '7', '8', '9'] := by
  induction fuel with
  | zero =>
    intro n c hc
    simp [natDigitsAux] at hc
  | succ f ih =>
    intro n c hc
    simp only [natDigitsAux] at hc
    split at hc
    next h =>
      simp only [List.mem_singleton] at hc
      subst hc
      interval_cases n <;> decide
    next h =>
      rcases List.mem_append.mp hc with h1 | h1
      · exact ih _ c h1
      · simp only [List.mem_singleton] at h1
        subst h1
        have h10 : n % 10 < 10 := Nat.mod_lt _ (by decide)
        revert h10
        generalize n % 10 = m
        intro h10
        interval_cases m <;> decide

theorem pyIntStr_mem (i : Int) (c : Char) (hc : c ∈ (pyIntStr i).data) :
    c ∈ ['-', '0', '1', '2', '3', '4', '5', '6', '7', '8', '9'] := by
  cases i with
  | ofNat n =>
    simp only [pyIntStr, natStr] at hc
    have hx := natDigitsAux_mem (n + 1) n c hc
    simp only [List.mem_cons, List.mem_singleton] at hx ⊢
    tauto
  | negSucc n =>
    simp only [pyIntStr, natStr] at hc
    rw [String.data_append] at hc
    rcases List.mem_append.mp hc with h1 | h1
    · simp only [List.mem_cons] at h1 ⊢
      rcases h1 with h1 | h1
      · exact Or.inl h1
      · simp at h1
    · have hx := natDigitsAux_mem (n + 2) (n + 1) c h1
      simp only [List.mem_cons, List.mem_singleton] at hx ⊢
      tauto

theorem pyIntStr_lower_ne (i : Int) : pyLower (pyIntStr i) ≠ "true" := by
  intro h
  have hd := congrArg String.data h
  simp only [pyLower] at hd
  have ht : 't' ∈ List.map Char.toLower (pyIntStr i).data := by
    rw [hd]
    decide
  rcases List.mem_map.mp ht with ⟨c, hc, hlc⟩
  have hmem := pyIntStr_mem i c hc
  have : Char.toLower c = c := by
    fin_cases hmem <;> decide
  rw [this] at hlc
  subst hlc
  revert hmem
  decide

theorem pyDict_lower_ne (entries : List (String × Val)) :
    pyLower (pyStr (Val.vDict entries)) ≠ "true" := by
  intro h
  have hd := congrArg String.data h
  simp only [pyStr, pyRepr, pyLower] at hd
  rw [String.data_append, String.data_append] at hd
  have hbrace : ("\x7b" : String).data = ['\x7b'] := rfl
  rw [hbrace] at hd
  simp only [List.map_append, List.map_cons] at hd
  have : Char.toLower '\x7b' = 't' := by
    have := List.head_eq_of_cons_eq hd
    exact this
  revert this
  decide

/-- The code's fallback test agrees with the spec's predicate on every
embedded value. -/
theorem branch_test_iff (st : PyState) :
    ((pyIsTrue ((dGet st "last_condition").getD Val.vNone) ||
        pyLower (pyStr ((dGet st "last_condition").getD Val.vNone)) == "true") = true ↔
      last_condition_truthy st) := by
  rcases hg : dGet st "last_condition" with _ | v
  · simp only [last_condition_truthy, hg, Option.getD_none]
    constructor
    · intro h
      exact absurd h (by decide)
    · intro h
      rcases h with h | ⟨s, h, _⟩ <;> cases h
  · simp only [last_condition_truthy, hg, Option.getD_some]
    cases v with
    | vNone =>
      constructor
      · intro h
        exact absurd h (by decide)
      · intro h
        rcases h with h | ⟨s, h, _⟩ <;> simp at h
    | vBool b =>
      cases b with
      | true => simp [pyIsTrue]
      | false =>
        constructor
        · intro h
          exact absurd h (by decide)
        · intro h
          rcases h with h | ⟨s, h, _⟩ <;> simp at h
    | vInt n =>
      constructor
      · intro h
        simp only [pyIsTrue, Bool.false_or] at h
        have := pyIntStr_lower_ne n
        simp only [pyStr, pyRepr] at h
        rw [beq_iff_eq] at h
        exact absurd h this
      · intro h
        rcases h with h | ⟨s, h, _⟩ <;> simp at h
    | vStr s =>
      constructor
      · intro h
        simp only [pyIsTrue, Bool.false_or, pyStr, beq_iff_eq] at h
        exact Or.inr ⟨s, rfl, h⟩
      · intro h
        rcases h with h | ⟨s2, h2, h3⟩
        · cases h
        · simp only [pyIsTrue, Bool.false_or, pyStr, beq_iff_eq]
          injection h2 with h2
          injection h2 with h2
          rw [h2]
          exact h3
    | vDict entries =>
      constructor
      · intro h
        simp only [pyIsTrue, Bool.false_or] at h
        rw [beq_iff_eq] at h
        exact absurd h (pyDict_lower_ne entries)
      · intro h
        rcases h with h | ⟨s, h, _⟩ <;> simp at h

/-- C5: for a branch edge with no condition entry, the code routes to the
`true` target exactly when the state's `last_condition` is the boolean true
value or a string equal to "true" case-insensitively, and to the `false`
target for every other value, including an absent key. -/
theorem C5_fallback_branch (nd : NodeDef) (es : EngineSt)
    (entries : List (String × String)) (tt ff : String)
    (h1 : nd.next = some (EdgeSpec.eDict entries))
    (h2 : entries ≠ [])
    (h3 : nd.meta_condition = none)
    (h4 : edgeGet entries "true" = some tt)
    (h5 : edgeGet entries "false" = some ff) :
    (last_condition_truthy es.state →
      staticNext nd es = (es, Except.ok (Val.vStr tt))) ∧
    (¬ last_condition_truthy es.state →
      staticNext nd es = (es, Except.ok (Val.vStr ff))) := by
  constructor
  · intro ht
    unfold staticNext
    rw [h1]
    dsimp only
    rw [if_pos h2, h3]
    dsimp only
    rw [if_pos ((branch_test_iff es.state).mpr ht), h4]
  · intro hf
    unfold staticNext
    rw [h1]
    dsimp only
    rw [if_pos h2, h3]
    dsimp only
    rw [if_neg (fun hc => hf ((branch_test_iff es.state).mp hc)), h5]

/-- C5, witness: with `last_condition` bound to the string "TRUE", the
two-target branch node routes to its `true` target "A". -/
theorem C5_fallback_branch_witness :
    staticNext fallbackBranchNode lastCondTrueEs =
      (lastCondTrueEs, Except.ok (Val.vStr "A")) :=
  (C5_fallback_branch fallbackBranchNode lastCondTrueEs [("true", "A"), ("false", "B")]
      "A" "B" rfl (by decide) rfl rfl rfl).1 (Or.inr ⟨"TRUE", rfl, by decide⟩)

/-- C6: if the state after a step's execution carries the stop flag bound to
the boolean true value, the step's computed next key is `None` no matter what
the explicit override or the static edge would have selected, and the loop
then ends with no further visits and no further log lines. -/
theorem C6_stop_override (nf tl : Registry) (nk : Val) (nd : NodeDef) (es es' : EngineSt)
    (nkNext : Val) (h : stepNode nf tl nk nd es = (es', Except.ok nkNext))
    (hstop : dGet es'.state "stop" = some (Val.vBool true)) :
    nkNext = Val.vNone ∧
    ∀ (g : GraphDef) (fuel v : Nat),
      runLoop g nf tl fuel nkNext v es' = (es', v, ExitReason.normal) := by
  have hnk : nkNext = Val.vNone := by
    unfold stepNode at h
    dsimp only at h
    split at h
    · simp at h
    next es1 result heq =>
      split at h
      · simp at h
      next es2 nn heq2 =>
        split at h
        · injection h with ha hb
          injection hb with hb
          exact hb.symm
        next hcond =>
          injection h with ha hb
          subst ha
          rw [hstop] at hcond
          simp [pyIsTrue] at hcond
  refine ⟨hnk, ?_⟩
  subst hnk
  intro g fuel v
  exact runLoop_none g nf tl fuel v es'

/-- C6, witness: a node executed on a state that carries `stop = True`
computes next key `None`, and the loop performs no further visits on it. -/
theorem C6_stop_override_witness :
    runLoop singleNodeGraph [] [] 5 Val.vNone 1
        (stepNode [] [] (Val.vStr "S") stopNodeDef stopEs).1 =
      ((stepNode [] [] (Val.vStr "S") stopNodeDef stopEs).1, 1, ExitReason.normal) :=
  (C6_stop_override [] [] (Val.vStr "S") stopNodeDef stopEs
      (stepNode [] [] (Val.vStr "S") stopNodeDef stopEs).1 Val.vNone rfl rfl).2
    singleNodeGraph 5 1

/-- C7: a step whose node names an unregistered tool (or an unregistered node
function) raises with a message naming it before anything else of the step
runs; a step that raises ends the loop at once with reason `raised`; and a
run whose loop raised ends FAILED with the failure line (message plus trace)
as its last log line. -/
theorem C7_unregistered :
    (∀ (nf tl : Registry) (nk : Val) (nd : NodeDef) (es : EngineSt) (fname : String),
        nd.fn_name = some fname → fname ≠ "" →
        ((pyStartsWith fname "tool:" = true → lookupFn tl (pyDrop fname 5) = none →
            stepNode nf tl nk nd es =
              (emit es ("Entering node: " ++ pyStr nk),
                Except.error ("Tool '" ++ pyDrop fname 5 ++ "' not found"))) ∧
          (pyStartsWith fname "tool:" = false → lookupFn nf fname = none →
            stepNode nf tl nk nd es =
              (emit es ("Entering node: " ++ pyStr nk),
                Except.error ("Node function '" ++ fname ++ "' not registered"))))) ∧
    (∀ (g : GraphDef) (nf tl : Registry) (fuel v : Nat) (es es2 : EngineSt) (nk : Val)
        (nd : NodeDef) (m : String),
        pyIsNone nk = false → v < MAX_STEPS → lookupNode g nk = some nd →
        stepNode nf tl nk nd { es with current_node := nk } = (es2, Except.error m) →
        runLoop g nf tl (fuel + 1) nk v es = (es2, v + 1, ExitReason.raised m)) ∧
    (∀ (g : GraphDef) (nf tl : Registry) (init : PyState) (m : String),
        (execute_graph_run g nf tl init).reason = ExitReason.raised m →
        (execute_graph_run g nf tl init).status = "FAILED" ∧
        (execute_graph_run g nf tl init).logs.getLast? =
          some ("Execution failed: " ++ m ++ "\n" ++ TRACEBACK)) := by
  refine ⟨?_, ?_, ?_⟩
  · intro nf tl nk nd es fname h1 h2
    constructor
    · intro hsw hlk
      have hx : execNodeFn nf tl nk nd (emit es ("Entering node: " ++ pyStr nk)) =
          (emit es ("Entering node: " ++ pyStr nk),
            Except.error ("Tool '" ++ pyDrop fname 5 ++ "' not found")) := by
        simp [execNodeFn, h1, h2, hsw, hlk]
      unfold stepNode
      dsimp only
      rw [hx]
    · intro hsw hlk
      have hx : execNodeFn nf tl nk nd (emit es ("Entering node: " ++ pyStr nk)) =
          (emit es ("Entering node: " ++ pyStr nk),
            Except.error ("Node function '" ++ fname ++ "' not registered")) := by
        simp [execNodeFn, h1, h2, hsw, hlk]
      unfold stepNode
      dsimp only
      rw [hx]
  · intro g nf tl fuel v es es2 nk nd m hnone hv hlk hstep
    rw [runLoop]
    dsimp only
    rw [if_neg (by simp [hnone]), if_neg (Nat.not_le.mpr hv), hlk]
    dsimp only
    rw [hstep]
  · intro g nf tl init m hm
    rcases hrl : runLoop g nf tl MAX_STEPS (Val.vStr g.entry) 0
        (emit { state := init }
          ("Run started for graph " ++ natStr g.graph_id ++ ", entry=" ++ g.entry)) with ⟨es, v, r⟩
    obtain ⟨hv, hr, hst, hstat, hlogs⟩ := execute_fields g nf tl init es v r hrl
    rw [hr] at hm
    subst hm
    constructor
    · rw [hstat]
    · rw [hlogs]
      exact List.getLast?_concat _

/-- C7, witness: the graph whose entry names the unregistered tool "x" ends
FAILED with the failure line naming the tool as its last log line. -/
theorem C7_unregistered_witness :
    (execute_graph_run missingToolGraph [] [] []).status = "FAILED" ∧
    (execute_graph_run missingToolGraph [] [] []).logs.getLast? =
      some ("Execution failed: " ++ "Tool 'x' not found" ++ "\n" ++ TRACEBACK) :=
  C7_unregistered.2.2 missingToolGraph [] [] [] "Tool 'x' not found" rfl

theorem execute_queue (g : GraphDef) (nf tl : Registry) (init : PyState) :
    (execute_graph_run g nf tl init).queue =
      (execute_graph_run g nf tl init).logs.map some ++ [none] := by
  rcases hrl : runLoop g nf tl MAX_STEPS (Val.vStr g.entry) 0
      (emit { state := init }
        ("Run started for graph " ++ natStr g.graph_id ++ ", entry=" ++ g.entry)) with ⟨es, v, r⟩
  have hinv : QInv es := by
    have h0 : QInv (emit { state := init }
        ("Run started for graph " ++ natStr g.graph_id ++ ", entry=" ++ g.entry)) := by
      simp [QInv, emit]
    have hx := runLoop_extends g nf tl MAX_STEPS (Val.vStr g.entry) 0
      (emit { state := init }
        ("Run started for graph " ++ natStr g.graph_id ++ ", entry=" ++ g.entry))
    rw [hrl] at hx
    exact qinv_of_extends h0 hx
  simp only [execute_graph_run, hrl]
  cases r with
  | raised m =>
    dsimp only
    rw [show (emit es ("Execution failed: " ++ m ++ "\n" ++ TRACEBACK)).queue =
        (emit es ("Execution failed: " ++ m ++ "\n" ++ TRACEBACK)).logs.map some from
      qinv_of_extends hinv (extends_emit es _)]
  | normal =>
    dsimp only
    split
    · rw [show (emit es ("Max steps " ++ natStr MAX_STEPS ++ " reached, aborting.")).queue =
          (emit es ("Max steps " ++ natStr MAX_STEPS ++ " reached, aborting.")).logs.map some from
        qinv_of_extends hinv (extends_emit es _)]
    · rw [show (emit es "Run finished. status=DONE").queue =
          (emit es "Run finished. status=DONE").logs.map some from
        qinv_of_extends hinv (extends_emit es _)]
  | missingNode k =>
    dsimp only
    split
    · rw [show (emit es ("Max steps " ++ natStr MAX_STEPS ++ " reached, aborting.")).queue =
          (emit es ("Max steps " ++ natStr MAX_STEPS ++ " reached, aborting.")).logs.map some from
        qinv_of_extends hinv (extends_emit es _)]
    · rw [show (emit es "Run finished. status=DONE").queue =
          (emit es "Run finished. status=DONE").logs.map some from
        qinv_of_extends hinv (extends_emit es _)]
  | stepBound =>
    dsimp only
    split
    · rw [show (emit es ("Max steps " ++ natStr MAX_STEPS ++ " reached, aborting.")).queue =
          (emit es ("Max steps " ++ natStr MAX_STEPS ++ " reached, aborting.")).logs.map some from
        qinv_of_extends hinv (extends_emit es _)]
    · rw [show (emit es "Run finished. status=DONE").queue =
          (emit es "Run finished. status=DONE").logs.map some from
        qinv_of_extends hinv (extends_emit es _)]

theorem drain_map (l : List String) : websocket_drain (l.map some ++ [none]) = l := by
  induction l with
  | nil => rfl
  | cons a t ih => simp [websocket_drain, ih]

/-- C8: every run's queue carries the end-of-stream marker `none` exactly
once, as its final element, on every exit path. -/
theorem C8_eos_marker (g : GraphDef) (nf tl : Registry) (init : PyState) :
    (execute_graph_run g nf tl init).queue.getLast? = some none ∧
    (execute_graph_run g nf tl init).queue.count none = 1 := by
  rw [execute_queue g nf tl init]
  constructor
  · exact List.getLast?_concat _
  · rw [List.count_append]
    have h0 : ((execute_graph_run g nf tl init).logs.map some).count (none : Option String) = 0 := by
      rw [List.count_eq_zero]
      intro hmem
      rcases List.mem_map.mp hmem with ⟨x, _, hx⟩
      cases hx
    rw [h0]
    rfl

/-- C9: every emitted message lands in the log list and on the queue in the
same order, so a subscriber draining the queue up to the end-of-stream marker
reads exactly the final log list. -/
theorem C9_log_stream (g : GraphDef) (nf tl : Registry) (init : PyState) :
    websocket_drain (execute_graph_run g nf tl init).queue =
      (execute_graph_run g nf tl init).logs ∧
    (execute_graph_run g nf tl init).queue =
      (execute_graph_run g nf tl init).logs.map some ++ [none] := by
  have hq := execute_queue g nf tl init
  refine ⟨?_, hq⟩
  rw [hq]
  exact drain_map _

end GraphEngine
